import Mathlib

/-!
Verification of the EMA-cross trading repository.

Part 1 embeds `src/ema_cross_backtest_binance.py` (the Binance backtester):
its position sizing, crossover detection, per-bar position management with
trailing-stop steps, entry logic and final mark-to-market close.

Part 2 embeds the decision core of `src/main.py` (the OKX live bot):
`ema_series`, `nwe_non_repaint`, the position state, `close_position` and one
iteration of the main loop (`run`).

Prices, sizes and equity are modelled as rationals; the Python floats are
used there only for exact-looking arithmetic on config constants, and every
claim under study is an exact-arithmetic statement.
-/

namespace EmaCross

/-- Side of a position (`'long'` / `'short'` strings in the Python). -/
inductive Side where
  | long
  | short
deriving DecidableEq, Repr

/-- The backtester's config constants (module-level CONFIG block of
`ema_cross_backtest_binance.py`).  Kept as a record so theorems can also
quantify over them; `defaultConfig` below holds the source's values. -/
structure BtConfig where
  riskFactor : ℚ
  leverage : ℚ
  crossThresholdPoints : ℚ
  slDistancePoints : ℚ
  step1TriggerLong : ℚ
  step1NewSlLong : ℚ
  step2TriggerLong : ℚ
  step2NewSlLong : ℚ
  step3TriggerLong : ℚ
  step3NewSlLong : ℚ
  step1TriggerShort : ℚ
  step1NewSlShort : ℚ
  step2TriggerShort : ℚ
  step2NewSlShort : ℚ
  step3TriggerShort : ℚ
  step3NewSlShort : ℚ
  minCooldownBars : ℤ
deriving DecidableEq, Repr

/-- The constants of the CONFIG block of `ema_cross_backtest_binance.py`. -/
def defaultConfig : BtConfig :=
  { riskFactor := 8/10
    leverage := 30
    crossThresholdPoints := 1
    slDistancePoints := 1234
    step1TriggerLong := 300
    step1NewSlLong := -700
    step2TriggerLong := 500
    step2NewSlLong := 460
    step3TriggerLong := 700
    step3NewSlLong := 650
    step1TriggerShort := 300
    step1NewSlShort := 700
    step2TriggerShort := 500
    step2NewSlShort := -460
    step3TriggerShort := 700
    step3NewSlShort := -650
    minCooldownBars := 1 }

/-- A backtester position: the `position` dict of `backtest`
(`side`, `entry`, `size`, `sl`, `step`, `entry_bar`). -/
structure Position where
  side : Side
  entry : ℚ
  size : ℚ
  sl : ℚ
  step : ℕ
  entryBar : ℤ
deriving DecidableEq, Repr

/-- The mutable state of the `backtest` loop: `equity`, `position`,
`tp_count`, `sl_count`, `last_exit_bar`. -/
structure BtState where
  equity : ℚ
  position : Option Position
  tpCount : ℕ
  slCount : ℕ
  lastExitBar : ℤ
deriving DecidableEq, Repr

/-- `contracts_for_equity(eqt, price)` of the backtester:
`notional = eqt * RISK_FACTOR * LEVERAGE`; returns `0` when the notional is
not positive, else `notional / price`.  It does not look at any stop price. -/
def contracts_for_equity (cfg : BtConfig) (eqt price : ℚ) : ℚ :=
  let notional := eqt * cfg.riskFactor * cfg.leverage
  if notional ≤ 0 then 0 else notional / price

/-- `crossed_up` of the backtester's entry logic:
`(ema_fast_prev <= ema_slow_prev) and (ema_fast > ema_slow + CROSS_THRESHOLD_POINTS)`. -/
def crossed_up (emaFastPrev emaSlowPrev emaFast emaSlow threshold : ℚ) : Bool :=
  decide (emaFastPrev ≤ emaSlowPrev) && decide (emaSlow + threshold < emaFast)

/-- `crossed_down` of the backtester's entry logic:
`(ema_fast_prev >= ema_slow_prev) and (ema_fast < ema_slow - CROSS_THRESHOLD_POINTS)`. -/
def crossed_down (emaFastPrev emaSlowPrev emaFast emaSlow threshold : ℚ) : Bool :=
  decide (emaSlowPrev ≤ emaFastPrev) && decide (emaFast < emaSlow - threshold)

/-- One bar of open-position management in `backtest` (the
`if position is not None:` block): stop-breach check against the bar's
adverse extreme first, else trailing-step advancement; only the step-2→3
advancement re-checks the bar's extreme against the newly assigned stop. -/
def managePosition (cfg : BtConfig) (st : BtState) (price high low : ℚ) (i : ℤ) :
    BtState :=
  match st.position with
  | none => st
  | some p =>
    match p.side with
    | Side.long =>
      if low ≤ p.sl then
        { st with
          equity := st.equity + (p.sl - p.entry) * p.size
          slCount := st.slCount + (if p.step < 2 then 1 else 0)
          tpCount := st.tpCount + (if 2 ≤ p.step then 1 else 0)
          position := none
          lastExitBar := i }
      else
        let pnlPoints := price - p.entry
        if p.step = 0 ∧ cfg.step1TriggerLong ≤ pnlPoints then
          { st with position := some { p with step := 1, sl := p.entry + cfg.step1NewSlLong } }
        else if p.step = 1 ∧ cfg.step2TriggerLong ≤ pnlPoints then
          { st with position := some { p with step := 2, sl := p.entry + cfg.step2NewSlLong } }
        else if p.step = 2 ∧ cfg.step3TriggerLong ≤ pnlPoints then
          if low ≤ p.entry + cfg.step3NewSlLong then
            { st with
              equity := st.equity + (p.entry + cfg.step3NewSlLong - p.entry) * p.size
              tpCount := st.tpCount + 1
              position := none
              lastExitBar := i }
          else
            { st with position := some { p with step := 3, sl := p.entry + cfg.step3NewSlLong } }
        else st
    | Side.short =>
      if p.sl ≤ high then
        { st with
          equity := st.equity + (p.entry - p.sl) * p.size
          slCount := st.slCount + (if p.step < 2 then 1 else 0)
          tpCount := st.tpCount + (if 2 ≤ p.step then 1 else 0)
          position := none
          lastExitBar := i }
      else
        let pnlPoints := p.entry - price
        if p.step = 0 ∧ cfg.step1TriggerShort ≤ pnlPoints then
          { st with position := some { p with step := 1, sl := p.entry + cfg.step1NewSlShort } }
        else if p.step = 1 ∧ cfg.step2TriggerShort ≤ pnlPoints then
          { st with position := some { p with step := 2, sl := p.entry + cfg.step2NewSlShort } }
        else if p.step = 2 ∧ cfg.step3TriggerShort ≤ pnlPoints then
          if p.entry + cfg.step3NewSlShort ≤ high then
            { st with
              equity := st.equity + (p.entry - (p.entry + cfg.step3NewSlShort)) * p.size
              tpCount := st.tpCount + 1
              position := none
              lastExitBar := i }
          else
            { st with position := some { p with step := 3, sl := p.entry + cfg.step3NewSlShort } }
        else st

/-- The backtester's entry logic (`if position is None and
i - last_exit_bar >= MIN_COOLDOWN_BARS:` block): open a long on
`crossed_up`, a short on `crossed_down`, only when the computed size is
positive. -/
def entryLogic (cfg : BtConfig) (st : BtState)
    (price emaFast emaSlow emaFastPrev emaSlowPrev : ℚ) (i : ℤ) : BtState :=
  match st.position with
  | some _ => st
  | none =>
    if cfg.minCooldownBars ≤ i - st.lastExitBar then
      if crossed_up emaFastPrev emaSlowPrev emaFast emaSlow cfg.crossThresholdPoints then
        let size := contracts_for_equity cfg st.equity price
        if 0 < size then
          let p : Position :=
            { side := Side.long, entry := price, size := size,
              sl := price - cfg.slDistancePoints, step := 0, entryBar := i }
          { st with position := some p }
        else st
      else if crossed_down emaFastPrev emaSlowPrev emaFast emaSlow cfg.crossThresholdPoints then
        let size := contracts_for_equity cfg st.equity price
        if 0 < size then
          let p : Position :=
            { side := Side.short, entry := price, size := size,
              sl := price + cfg.slDistancePoints, step := 0, entryBar := i }
          { st with position := some p }
        else st
      else st
    else st

/-- One full iteration of the `backtest` loop body for bar `i` (after the
warm-up guard): manage the open position first, then the entry logic on the
same bar's values. -/
def stepBar (cfg : BtConfig) (st : BtState)
    (price high low emaFast emaSlow emaFastPrev emaSlowPrev : ℚ) (i : ℤ) : BtState :=
  entryLogic cfg (managePosition cfg st price high low i)
    price emaFast emaSlow emaFastPrev emaSlowPrev i

/-- The backtester's final mark-to-market close (`if position is not None:`
after the loop): close at the last close price, add the P&L to equity, and
leave `tp_count` / `sl_count` untouched. -/
def finalClose (st : BtState) (lastPrice : ℚ) : BtState :=
  match st.position with
  | none => st
  | some p =>
    let pnl := match p.side with
      | Side.long => (lastPrice - p.entry) * p.size
      | Side.short => (p.entry - lastPrice) * p.size
    { st with equity := st.equity + pnl, position := none }

/-- The EMA recurrence loop shared by both EMA implementations: starting
from a previous value `e`, map each remaining close `v` to
`v * k + e * (1 - k)`, threading the result (the `for v in values[n:]` loop
of `ema_series` in `main.py`). -/
def emaFrom (k e : ℚ) : List ℚ → List ℚ
  | [] => []
  | v :: vs => (v * k + e * (1 - k)) :: emaFrom k (v * k + e * (1 - k)) vs

/-- `ema_series(values, period)` of `main.py`: `None` when the input is
empty or shorter than the period; otherwise `period - 1` undefined leading
entries, then the SMA seed, then the EMA recurrence with
`k = 2 / (period + 1)`.  (For `period = 0` the Python raises a
`ZeroDivisionError`; every claim assumes a positive period.) -/
def ema_series (values : List ℚ) (period : ℕ) : Option (List (Option ℚ)) :=
  if values.length = 0 ∨ values.length < period then none
  else
    let sma := (values.take period).sum / (period : ℚ)
    let k : ℚ := 2 / ((period : ℚ) + 1)
    some (List.replicate (period - 1) none ++
      (some sma :: (emaFrom k sma (values.drop period)).map some))

/-- The EMA used by the backtester:
`series.ewm(span=period, adjust=False).mean()` (pandas).  With
`adjust=False` pandas seeds at the first value, `e[0] = values[0]`, and
applies `e[i] = values[i] * k + e[i-1] * (1 - k)` with
`k = 2 / (period + 1)` from index 1 on; every index is defined. -/
def ewm_adjust_false (values : List ℚ) (period : ℕ) : List ℚ :=
  match values with
  | [] => []
  | v :: vs => v :: emaFrom (2 / ((period : ℚ) + 1)) v vs

/-- `nwe_non_repaint(closes, h, mult, win)` of `main.py`, the
Nadaraya-Watson envelope on closed bars.  The Gaussian kernel
`_gauss(i, h) = exp(-i^2 / (2 h^2))` is a transcendental function of floats;
it is abstracted here as the kernel argument `gauss : ℕ → ℚ`, and every
theorem below holds for an arbitrary kernel.  `closes[-1 - i]` is read off
the reversed list.  Returns `(upper, lower, mid)` in the Python's order, or
`none` for the `(None, None, None)` short-input case. -/
def nwe_non_repaint (gauss : ℕ → ℚ) (closes : List ℚ) (mult : ℚ) (win : ℕ) :
    Option (ℚ × ℚ × ℚ) :=
  if closes.length < win + 1 then none
  else
    let rev := closes.reverse
    let den := ((List.range win).map gauss).sum
    let s := ((List.range win).map (fun i => rev.getD i 0 * gauss i)).sum
    let mid := s / den
    let diffs := ((List.range win).map (fun i => |rev.getD (i + 1) 0 - mid|)).sum
    let mae := (diffs / (win : ℚ)) * mult
    some (mid + mae, mid - mae, mid)

/-! ### The live bot's position state machine (`main.py`) -/

/-- Trend classification result (`TrendSide` in `main.py`). -/
inductive TrendSide where
  | buy
  | sell
  | sideNone
deriving DecidableEq, Repr

/-- The envelope bands (`Bands` dataclass of `main.py`). -/
structure Bands where
  upper : ℚ
  lower : ℚ
  mid : ℚ
deriving DecidableEq, Repr

/-- A venue-reported position, the dict returned by `OKX.fetch_position`:
`{'side', 'contracts', 'entry'}`. -/
structure VenuePos where
  side : Side
  contracts : ℚ
  entry : ℚ
deriving DecidableEq, Repr

/-- The `PositionState` dataclass of `main.py`. -/
structure PositionState where
  side : Side
  entry : ℚ
  contracts : ℚ
  cs : ℚ
  marginUsed : ℚ
  slPrice : ℚ
deriving DecidableEq, Repr

/-- The bot's global mutable state: `pos_state` and `sl_lock_active`. -/
structure BotState where
  posState : Option PositionState
  slLockActive : Bool
deriving DecidableEq, Repr

/-- `POSITION_MARGIN_FRACTION` of `main.py`. -/
def POSITION_MARGIN_FRACTION : ℚ := 8/10

/-- `LEVERAGE` of `main.py` (OKX M15 bot). -/
def LEVERAGE_M15 : ℚ := 15

/-- `SL_POINTS` of `main.py`. -/
def SL_POINTS : ℚ := 300

/-- `compute_sl_price(entry_price, side)` of `main.py`:
`SL = entry ± SL_POINTS`. -/
def compute_sl_price (entryPrice : ℚ) (side : Side) : ℚ :=
  match side with
  | Side.long => entryPrice - SL_POINTS
  | Side.short => entryPrice + SL_POINTS

/-- `tp_hit(pos_side, price_now, bands)` of `main.py`. -/
def tp_hit (posSide : Side) (priceNow : ℚ) (bands : Bands) : Bool :=
  match posSide with
  | Side.long => decide (bands.upper ≤ priceNow)
  | Side.short => decide (priceNow ≤ bands.lower)

/-- `entry_signal(side_allowed, price_now, bands)` of `main.py`. -/
def entry_signal (sideAllowed : TrendSide) (priceNow : ℚ) (bands : Bands) :
    Option Side :=
  if sideAllowed = TrendSide.buy ∧ priceNow ≤ bands.lower then some Side.long
  else if sideAllowed = TrendSide.sell ∧ bands.upper ≤ priceNow then some Side.short
  else none

/-- `OKX.contracts_from_notional(price, notional)`: zero on non-positive
inputs, else `notional / (price * contract_size)`, rejected when below the
`0.01` minimum.  The venue's `amount_to_precision` rounding is an external
collaborator and is modelled as the identity. -/
def contracts_from_notional (cs price notional : ℚ) : ℚ :=
  if price ≤ 0 ∨ cs ≤ 0 ∨ notional ≤ 0 then 0
  else
    let qty := notional / (price * cs)
    if qty < 1/100 then 0 else qty

/-- `OKX.reduce_only_close`: sends a reduce-only market order, then re-polls
`fetch_position` up to 10 times, and returns whether the venue finally
reports the position gone.  The venue interaction is abstracted as the
post-retry observation `venueFlatAfterRetries`; the function's value is
exactly that observation. -/
def reduce_only_close (venueFlatAfterRetries : Bool) : Bool :=
  venueFlatAfterRetries

/-- `close_position(ex, reason)` of `main.py`.  It calls
`ex.reduce_only_close()` and discards the returned confirmation, computes
the P&L from the last ticker price, activates the post-SL lock when the
reason contains `"SL"`, and unconditionally sets `pos_state = None`.
Returns the new state and the recorded P&L (if a position was open).
`reasonIsSL` models `"SL" in reason.upper()`. -/
def close_position (st : BotState) (venueFlatAfterRetries : Bool)
    (reasonIsSL : Bool) (priceNow contractSize : ℚ) : BotState × Option ℚ :=
  match st.posState with
  | none => (st, none)
  | some ps =>
    let _ := reduce_only_close venueFlatAfterRetries
    let deltaPts := match ps.side with
      | Side.long => priceNow - ps.entry
      | Side.short => ps.entry - priceNow
    let pnl := deltaPts * ps.contracts * contractSize
    ({ posState := none,
       slLockActive := if reasonIsSL then true else st.slLockActive }, some pnl)

/-- `OKX.open_market(side, notional, price_ref)`: abandons the order when
the computed contract count is not positive, else places a market order and
returns the venue-reported position (`venuePosAfter`, an input from the
external venue). -/
def open_market (cs price notional : ℚ) (venuePosAfter : Option VenuePos) :
    Option VenuePos :=
  if contracts_from_notional cs price notional ≤ 0 then none else venuePosAfter

/-- `open_position(ex, side, price_now)` of `main.py`: margin =
`free * POSITION_MARGIN_FRACTION` (clamped at 0), notional =
`margin * LEVERAGE`, market order via `open_market`; on a venue-confirmed
fill, stores the new `PositionState` with `sl_price = entry ± SL_POINTS`.
Returns the new state and whether the open succeeded. -/
def open_position (st : BotState) (cs free price : ℚ)
    (venuePosAfter : Option VenuePos) : BotState × Bool :=
  let margin := max 0 (free * POSITION_MARGIN_FRACTION)
  if margin ≤ 0 then (st, false)
  else
    let notional := margin * LEVERAGE_M15
    match open_market cs price notional venuePosAfter with
    | none => (st, false)
    | some pos =>
      let ps : PositionState :=
        { side := pos.side, entry := pos.entry, contracts := pos.contracts,
          cs := cs, marginUsed := margin,
          slPrice := compute_sl_price pos.entry pos.side }
      ({ st with posState := some ps }, true)

/-- The `run` loop's position sync (`if live_pos is None and pos_state is
not None: pos_state = None`): a venue-reported flat overrides local state;
the reverse direction is not corrected. -/
def syncState (posState : Option PositionState) (livePos : Option VenuePos) :
    Option PositionState :=
  if livePos.isNone ∧ posState.isSome then none else posState

/-- What a single loop iteration did, for stating temporal properties:
nothing, an entry attempt, or a close (flagged with whether the close
reason was a stop-loss). -/
inductive TickAction where
  | noop
  | opened (side : Side)
  | closed (reasonSL : Bool)
deriving DecidableEq, Repr

/-- The external observations one iteration of `run` consumes, in the order
the Python reads them: the last closed bar's close, the live ticker price,
the EMA trend, the envelope bands, the venue position, plus the venue
responses of any order placed this tick. -/
structure TickInput where
  lastClosedClose : ℚ
  lastPrice : ℚ
  sideAllowed : TrendSide
  bands : Bands
  livePos : Option VenuePos
  venueFlatAfterClose : Bool
  free : ℚ
  fillResult : Option VenuePos
  cs : ℚ
deriving DecidableEq, Repr

/-- One iteration of the decision part of `run` in `main.py` (everything
after the data fetch): the post-SL lock check (which reads only the last
*closed* bar's close), the venue sync, the live-position refresh, the
TP / SL / trend-flip exits, and the entry branch. -/
def runTick (st : BotState) (inp : TickInput) : BotState × TickAction :=
  if st.slLockActive then
    if inp.bands.lower ≤ inp.lastClosedClose ∧ inp.lastClosedClose ≤ inp.bands.upper then
      ({ st with slLockActive := false }, TickAction.noop)
    else
      (st, TickAction.noop)
  else
    let st1 : BotState := { st with posState := syncState st.posState inp.livePos }
    match st1.posState with
    | some ps =>
      let psR := match inp.livePos with
        | some lp => { ps with contracts := lp.contracts, entry := lp.entry, slPrice := compute_sl_price lp.entry ps.side }
        | none => ps
      let st2 : BotState := { st1 with posState := some psR }
      if tp_hit psR.side inp.lastPrice inp.bands then
        ((close_position st2 inp.venueFlatAfterClose false inp.lastPrice inp.cs).1,
          TickAction.closed false)
      else if psR.side = Side.long ∧ inp.lastPrice ≤ psR.slPrice then
        ((close_position st2 inp.venueFlatAfterClose true inp.lastPrice inp.cs).1,
          TickAction.closed true)
      else if psR.side = Side.short ∧ psR.slPrice ≤ inp.lastPrice then
        ((close_position st2 inp.venueFlatAfterClose true inp.lastPrice inp.cs).1,
          TickAction.closed true)
      else if (psR.side = Side.long ∧ inp.sideAllowed = TrendSide.sell) ∨
              (psR.side = Side.short ∧ inp.sideAllowed = TrendSide.buy) then
        ((close_position st2 inp.venueFlatAfterClose false inp.lastPrice inp.cs).1,
          TickAction.closed false)
      else
        (st2, TickAction.noop)
    | none =>
      if inp.sideAllowed = TrendSide.buy ∨ inp.sideAllowed = TrendSide.sell then
        match entry_signal inp.sideAllowed inp.lastPrice inp.bands with
        | some sig =>
          ((open_position st1 inp.cs inp.free inp.lastPrice inp.fillResult).1,
            TickAction.opened sig)
        | none => (st1, TickAction.noop)
      else (st1, TickAction.noop)

/-! ## Theorems -/

/-- C1 (counterexample): the backtester's sizer does not implement the
claimed risk-fraction formula.  With equity 100 and entry price 100, a stop
at the entry itself gives `stop_distance_fraction = |100 - 100| / 100 = 0 ≤ 0`,
yet the sizer returns `24 ≠ 0`; and with a stop at 95
(`stop_distance_fraction = 1/20`), the claimed quantity
`(equity * risk_fraction / sdf) / entry` with the claim's
`risk_fraction = 1/100` is `1/5`, not the code's `24`. -/
theorem contracts_for_equity_claim_false :
    |(100 : ℚ) - 100| / 100 ≤ 0 ∧
    contracts_for_equity defaultConfig 100 100 = 24 ∧
    (24 : ℚ) ≠ 0 ∧
    (100 * (1/100) / (|(100 : ℚ) - 95| / 100)) / 100 = 1/5 ∧
    (24 : ℚ) ≠ 1/5 := by
  refine ⟨by norm_num, ?_, by norm_num, by norm_num, by norm_num⟩
  norm_num [contracts_for_equity, defaultConfig]

/-- C1 (amended): the backtester's sizer ignores the stop entirely:
for positive equity the quantity is
`equity * RISK_FACTOR * LEVERAGE / price = equity * (8/10) * 30 / price`
(so with equity 100 the notional is 2400 quote units, not 20), and the
sizer returns zero exactly when the notional `equity * (8/10) * 30` is not
positive — i.e. when equity is not positive, independent of any stop. -/
theorem contracts_for_equity_spec (eqt price : ℚ) :
    (0 < eqt →
      contracts_for_equity defaultConfig eqt price = eqt * (8/10) * 30 / price) ∧
    (eqt ≤ 0 → contracts_for_equity defaultConfig eqt price = 0) := by
  constructor
  · intro h
    have hpos : ¬ (eqt * (8/10) * 30 ≤ 0) := by nlinarith
    simp only [contracts_for_equity, defaultConfig]
    rw [if_neg hpos]
  · intro h
    have hnp : eqt * (8/10) * 30 ≤ 0 := by nlinarith
    simp only [contracts_for_equity, defaultConfig]
    rw [if_pos hnp]

/-- C1 (witness): the amended sizing law at equity 100, price 100:
quantity `= 100 * (8/10) * 30 / 100 = 24`. -/
theorem contracts_for_equity_spec_witness :
    (0 : ℚ) < 100 ∧
    contracts_for_equity defaultConfig 100 100 = 100 * (8/10) * 30 / 100 :=
  ⟨by norm_num, (contracts_for_equity_spec 100 100).1 (by norm_num)⟩

/-- C7: the backtester recognizes an upward cross exactly when the previous
tick had `ema_fast ≤ ema_slow` and the current tick has
`ema_fast > ema_slow + threshold` (symmetric downward), so a sustained
small gap never re-triggers; with previous `(9.8, 10.0)`, current
`(10.3, 10.0)` and threshold `0.2` the crossover-up is confirmed. -/
theorem crossed_up_down_spec :
    (∀ efp esp ef es th : ℚ,
      crossed_up efp esp ef es th = true ↔ (efp ≤ esp ∧ es + th < ef)) ∧
    (∀ efp esp ef es th : ℚ,
      crossed_down efp esp ef es th = true ↔ (esp ≤ efp ∧ ef < es - th)) ∧
    crossed_up (98/10) 10 (103/10) 10 (2/10) = true := by
  refine ⟨?_, ?_, ?_⟩
  · intro efp esp ef es th
    simp [crossed_up]
  · intro efp esp ef es th
    simp [crossed_down]
  · simp only [crossed_up, Bool.and_eq_true, decide_eq_true_eq]
    norm_num

/-- C6: whenever a bar's adverse extreme breaches the current stop, the
backtester exits at exactly the stop price: realized P&L is
`(sl - entry) * size` for a long (checked against the bar's low) and
`(entry - sl) * size` for a short (checked against the bar's high), with
the position cleared and the exit bar recorded. -/
theorem stop_breach_exit_spec (cfg : BtConfig) (st : BtState) (p : Position)
    (price high low : ℚ) (i : ℤ) (hp : st.position = some p) :
    (p.side = Side.long → low ≤ p.sl →
      managePosition cfg st price high low i =
        { st with
          equity := st.equity + (p.sl - p.entry) * p.size
          slCount := st.slCount + (if p.step < 2 then 1 else 0)
          tpCount := st.tpCount + (if 2 ≤ p.step then 1 else 0)
          position := none
          lastExitBar := i }) ∧
    (p.side = Side.short → p.sl ≤ high →
      managePosition cfg st price high low i =
        { st with
          equity := st.equity + (p.entry - p.sl) * p.size
          slCount := st.slCount + (if p.step < 2 then 1 else 0)
          tpCount := st.tpCount + (if 2 ≤ p.step then 1 else 0)
          position := none
          lastExitBar := i }) := by
  constructor
  · intro hs hl
    simp only [managePosition, hp, hs]
    rw [if_pos hl]
  · intro hs hh
    simp only [managePosition, hp, hs]
    rw [if_pos hh]

/-- C6 (witness): the claim's example — a long entered at 100 with stop 90
and a bar low of 85 closes at exactly 90: on equity 1000 the realized
equity is `1000 + (90 - 100) * 1 = 990`, a loss of exactly the 10-point
stop distance, not the 15 points down to the bar's low. -/
theorem stop_breach_exit_witness :
    managePosition defaultConfig
      { equity := 1000, position := some { side := Side.long, entry := 100, size := 1, sl := 90, step := 0, entryBar := 0 }, tpCount := 0, slCount := 0, lastExitBar := -9999 }
      95 100 85 10 =
    { equity := 990, position := none, tpCount := 0, slCount := 1, lastExitBar := 10 } := by
  have h := (stop_breach_exit_spec defaultConfig
    { equity := 1000, position := some { side := Side.long, entry := 100, size := 1, sl := 90, step := 0, entryBar := 0 }, tpCount := 0, slCount := 0, lastExitBar := -9999 }
    { side := Side.long, entry := 100, size := 1, sl := 90, step := 0, entryBar := 0 }
    95 100 85 10 rfl).1 rfl (by norm_num)
  rw [h]
  norm_num

/-- C10: a position still open after the last bar is closed by the
backtester at the final close price, mark-to-market: equity gains
`(last - entry) * size` (long) or `(entry - last) * size` (short), the
position is cleared, and neither `tp_count` nor `sl_count` changes. -/
theorem final_close_spec (st : BtState) (p : Position) (lastPrice : ℚ)
    (hp : st.position = some p) :
    (finalClose st lastPrice).position = none ∧
    (finalClose st lastPrice).tpCount = st.tpCount ∧
    (finalClose st lastPrice).slCount = st.slCount ∧
    (finalClose st lastPrice).equity = st.equity +
      (match p.side with
        | Side.long => (lastPrice - p.entry) * p.size
        | Side.short => (p.entry - lastPrice) * p.size) := by
  simp [finalClose, hp]

/-- C10 (witness): a long of size 2 entered at 100 still open at a final
close of 110 adds `(110 - 100) * 2 = 20` to equity and leaves the
`tp_count = 3`, `sl_count = 4` counters untouched. -/
theorem final_close_witness :
    (finalClose { equity := 50, position := some { side := Side.long, entry := 100, size := 2, sl := 0, step := 1, entryBar := 7 }, tpCount := 3, slCount := 4, lastExitBar := 2 } 110).position = none ∧
    (finalClose { equity := 50, position := some { side := Side.long, entry := 100, size := 2, sl := 0, step := 1, entryBar := 7 }, tpCount := 3, slCount := 4, lastExitBar := 2 } 110).tpCount = 3 ∧
    (finalClose { equity := 50, position := some { side := Side.long, entry := 100, size := 2, sl := 0, step := 1, entryBar := 7 }, tpCount := 3, slCount := 4, lastExitBar := 2 } 110).slCount = 4 ∧
    (finalClose { equity := 50, position := some { side := Side.long, entry := 100, size := 2, sl := 0, step := 1, entryBar := 7 }, tpCount := 3, slCount := 4, lastExitBar := 2 } 110).equity = 50 +
      (match Side.long with
        | Side.long => ((110 : ℚ) - 100) * 2
        | Side.short => ((100 : ℚ) - 110) * 2) :=
  final_close_spec
    { equity := 50, position := some { side := Side.long, entry := 100, size := 2, sl := 0, step := 1, entryBar := 7 }, tpCount := 3, slCount := 4, lastExitBar := 2 }
    { side := Side.long, entry := 100, size := 2, sl := 0, step := 1, entryBar := 7 }
    110 rfl

/-- C3 (code evaluated at the failing input): a long at entry 10000 with
the initial stop `10000 - 1234 = 8766` sees a bar with close 10300 and low
9000.  The close triggers the step-0 → step-1 advance (excursion
`300 ≥ 300`), which moves the stop to `10000 - 700 = 9300`; the bar's low
9000 already breaches that new stop, yet the backtester leaves the
position open with the new stop and registers no exit — the same-bar
re-check exists only for the step-2 → step-3 advance. -/
theorem step_advance_no_same_bar_exit :
    managePosition defaultConfig
      { equity := 100, position := some { side := Side.long, entry := 10000, size := 1, sl := 8766, step := 0, entryBar := 50 }, tpCount := 0, slCount := 0, lastExitBar := -9999 }
      10300 10400 9000 60 =
      { equity := 100, position := some { side := Side.long, entry := 10000, size := 1, sl := 9300, step := 1, entryBar := 50 }, tpCount := 0, slCount := 0, lastExitBar := -9999 } ∧
    (9000 : ℚ) ≤ 9300 := by
  constructor
  · norm_num [managePosition, defaultConfig, BtState.mk.injEq, Position.mk.injEq]
  · norm_num

/-- C4 (code evaluated at the failing input): when the venue still reports
the position open after the close request and the 10 bounded re-polls
(`reduce_only_close` returns `false`), `close_position` nevertheless clears
the local position state, and on the following tick (venue position still
open, no local position, buy trend, price at the lower band) the bot
attempts a brand-new entry. -/
theorem close_position_unconfirmed :
    reduce_only_close false = false ∧
    (close_position
      { posState := some { side := Side.long, entry := 114500, contracts := 2, cs := 1/100, marginUsed := 10, slPrice := 114200 }, slLockActive := false }
      false true 114000 (1/100)).1.posState = none ∧
    (runTick { posState := none, slLockActive := false }
      { lastClosedClose := 100, lastPrice := 85, sideAllowed := TrendSide.buy,
        bands := { upper := 110, lower := 90, mid := 100 },
        livePos := some { side := Side.long, contracts := 5, entry := 100 },
        venueFlatAfterClose := false, free := 100,
        fillResult := some { side := Side.long, contracts := 1, entry := 85 },
        cs := 1/100 }).2 = TickAction.opened Side.long := by
  exact ⟨rfl, rfl, by decide⟩

/-- C5: while the post-stop-loss lock is active, a tick changes no position
state and performs no action; the only possible transition is unlocking,
which happens exactly when the last *closed* bar's close lies in
`[envelope_lower, envelope_upper]`; and the outcome of the lock depends
only on the bands and the last closed close — in particular the intrabar
ticker price never unlocks. -/
theorem locked_tick_spec (st : BotState) (inp : TickInput)
    (h : st.slLockActive = true) :
    (runTick st inp).1.posState = st.posState ∧
    (runTick st inp).2 = TickAction.noop ∧
    ((runTick st inp).1.slLockActive = false ↔
      (inp.bands.lower ≤ inp.lastClosedClose ∧
        inp.lastClosedClose ≤ inp.bands.upper)) ∧
    (∀ inp' : TickInput, inp'.bands = inp.bands →
      inp'.lastClosedClose = inp.lastClosedClose →
      (runTick st inp').1.slLockActive = (runTick st inp).1.slLockActive) := by
  by_cases hz : inp.bands.lower ≤ inp.lastClosedClose ∧
      inp.lastClosedClose ≤ inp.bands.upper
  · refine ⟨?_, ?_, ?_, ?_⟩
    · simp [runTick, h, hz]
    · simp [runTick, h, hz]
    · simp [runTick, h, hz]
    · intro inp' hb hc
      simp [runTick, h, hb, hc]
  · refine ⟨?_, ?_, ?_, ?_⟩
    · simp [runTick, h, hz]
    · simp [runTick, h, hz]
    · simp [runTick, h, hz]
    · intro inp' hb hc
      simp [runTick, h, hb, hc]

/-- C5 (witness): a locked bot whose last closed close 100 lies inside the
bands `[90, 110]` keeps its (absent) position, performs no action, and
unlocks. -/
theorem locked_tick_witness :
    (runTick { posState := none, slLockActive := true }
      { lastClosedClose := 100, lastPrice := 200, sideAllowed := TrendSide.buy,
        bands := { upper := 110, lower := 90, mid := 100 },
        livePos := none, venueFlatAfterClose := true, free := 100,
        fillResult := none, cs := 1/100 }).1.posState = none ∧
    (runTick { posState := none, slLockActive := true }
      { lastClosedClose := 100, lastPrice := 200, sideAllowed := TrendSide.buy,
        bands := { upper := 110, lower := 90, mid := 100 },
        livePos := none, venueFlatAfterClose := true, free := 100,
        fillResult := none, cs := 1/100 }).2 = TickAction.noop ∧
    (runTick { posState := none, slLockActive := true }
      { lastClosedClose := 100, lastPrice := 200, sideAllowed := TrendSide.buy,
        bands := { upper := 110, lower := 90, mid := 100 },
        livePos := none, venueFlatAfterClose := true, free := 100,
        fillResult := none, cs := 1/100 }).1.slLockActive = false := by
  have h := locked_tick_spec { posState := none, slLockActive := true }
    { lastClosedClose := 100, lastPrice := 200, sideAllowed := TrendSide.buy,
      bands := { upper := 110, lower := 90, mid := 100 },
      livePos := none, venueFlatAfterClose := true, free := 100,
      fillResult := none, cs := 1/100 } rfl
  exact ⟨h.1, h.2.1, h.2.2.1.mpr (by norm_num)⟩

/-- C9: on at least `win + 1` closes and a non-negative multiplier, the
envelope returns bands with `lower ≤ mid ≤ upper` and `mid` exactly the
midpoint (`upper - mid = mid - lower`); on fewer closes all three values
are the undefined marker.  The statement holds for every kernel `gauss`,
in particular for the source's Gaussian. -/
theorem nwe_bands_spec (gauss : ℕ → ℚ) (closes : List ℚ) (mult : ℚ) (win : ℕ) :
    (win + 1 ≤ closes.length → 0 ≤ mult →
      ∃ u l m : ℚ, nwe_non_repaint gauss closes mult win = some (u, l, m) ∧
        l ≤ m ∧ m ≤ u ∧ u - m = m - l) ∧
    (closes.length < win + 1 → nwe_non_repaint gauss closes mult win = none) := by
  constructor
  · intro hlen hmult
    have hguard : ¬ closes.length < win + 1 := by omega
    simp only [nwe_non_repaint, if_neg hguard]
    set rev := closes.reverse with hrev
    set den := ((List.range win).map gauss).sum with hden
    set s := ((List.range win).map (fun i => rev.getD i 0 * gauss i)).sum with hs
    set mid := s / den with hmid
    set diffs := ((List.range win).map (fun i => |rev.getD (i + 1) 0 - mid|)).sum with hdiffs
    set mae := (diffs / (win : ℚ)) * mult with hmae
    have hd : 0 ≤ diffs := by
      apply List.sum_nonneg
      intro x hx
      rcases List.mem_map.1 hx with ⟨i, _, hi⟩
      rw [← hi]
      exact abs_nonneg _
    have hm : 0 ≤ mae := by
      apply mul_nonneg _ hmult
      apply div_nonneg hd
      exact Nat.cast_nonneg win
    exact ⟨mid + mae, mid - mae, mid, rfl, by linarith, by linarith, by ring⟩
  · intro hlen
    simp only [nwe_non_repaint, if_pos hlen]

/-- C9 (witness): with the constant kernel, closes `[1, 2, 3]`, multiplier
1 and window 2 the envelope is defined and well-ordered around its mid. -/
theorem nwe_bands_witness :
    ∃ u l m : ℚ, nwe_non_repaint (fun _ => 1) [1, 2, 3] 1 2 = some (u, l, m) ∧
      l ≤ m ∧ m ≤ u ∧ u - m = m - l :=
  (nwe_bands_spec (fun _ => 1) [1, 2, 3] 1 2).1 (by norm_num) (by norm_num)

set_option maxHeartbeats 1000000 in
/-- Helper: one bar of backtester position management either exits (clears
the position and records the exit bar) or keeps a position with the same
side, entry, size and entry bar (only `step` and `sl` may change). -/
theorem managePosition_cases (cfg : BtConfig) (st : BtState) (p : Position)
    (price high low : ℚ) (i : ℤ) (hp : st.position = some p) :
    ((managePosition cfg st price high low i).position = none ∧
      (managePosition cfg st price high low i).lastExitBar = i) ∨
    (∃ q : Position, (managePosition cfg st price high low i).position = some q ∧
      q.side = p.side ∧ q.entry = p.entry ∧ q.size = p.size ∧
      q.entryBar = p.entryBar ∧
      (managePosition cfg st price high low i).lastExitBar = st.lastExitBar) := by
  obtain ⟨pside, pentry, psize, psl, pstep, pbar⟩ := p
  simp only [managePosition, hp]
  cases pside <;> split_ifs <;>
    first
      | exact Or.inl ⟨rfl, rfl⟩
      | exact Or.inr ⟨_, rfl, rfl, rfl, rfl, rfl, rfl⟩
      | exact Or.inr ⟨_, hp, rfl, rfl, rfl, rfl, rfl⟩

/-- Helper: the backtester's entry logic does nothing while a position is
open. -/
theorem entryLogic_of_some (cfg : BtConfig) (st : BtState) (p : Position)
    (price ef es efp esp : ℚ) (i : ℤ) (hp : st.position = some p) :
    entryLogic cfg st price ef es efp esp i = st := by
  simp only [entryLogic, hp]

/-- Helper: with a cooldown of at least one bar, the entry logic does
nothing on the very bar an exit was recorded. -/
theorem entryLogic_cooldown (cfg : BtConfig) (st : BtState)
    (price ef es efp esp : ℚ) (i : ℤ) (h1 : 1 ≤ cfg.minCooldownBars)
    (hst : st.position = none) (hle : st.lastExitBar = i) :
    entryLogic cfg st price ef es efp esp i = st := by
  have hguard : ¬ cfg.minCooldownBars ≤ i - st.lastExitBar := by
    rw [hle]
    omega
  simp only [entryLogic, hst]
  rw [if_neg hguard]

/-- C8: at most one position is ever open per symbol.  (1) In the
backtester (whose state holds zero or one position by construction), with
the configured cooldown of at least one bar, a bar processed with an open
position ends either flat or with that same position (same side, entry,
size and entry bar): the entry logic never replaces or duplicates an open
position.  (2) In the live bot, a tick attempts a new entry only when the
venue-synced position state is flat. -/
theorem single_position_spec :
    (∀ (cfg : BtConfig) (st : BtState) (p : Position)
      (price high low ef es efp esp : ℚ) (i : ℤ),
      1 ≤ cfg.minCooldownBars → st.position = some p →
      (stepBar cfg st price high low ef es efp esp i).position = none ∨
      ∃ q : Position,
        (stepBar cfg st price high low ef es efp esp i).position = some q ∧
        q.side = p.side ∧ q.entry = p.entry ∧ q.size = p.size ∧
        q.entryBar = p.entryBar) ∧
    (∀ (st : BotState) (inp : TickInput) (s : Side),
      (runTick st inp).2 = TickAction.opened s →
      syncState st.posState inp.livePos = none) := by
  constructor
  · intro cfg st p price high low ef es efp esp i h1 hp
    rcases managePosition_cases cfg st p price high low i hp with
      ⟨hnone, hbar⟩ | ⟨q, hq, hside, hentry, hsize, hbar, _⟩
    · left
      rw [stepBar, entryLogic_cooldown cfg _ price ef es efp esp i h1 hnone hbar]
      exact hnone
    · right
      refine ⟨q, ?_, hside, hentry, hsize, hbar⟩
      rw [stepBar, entryLogic_of_some cfg _ q price ef es efp esp i hq]
      exact hq
  · intro st inp s h
    by_cases hl : st.slLockActive = true
    · by_cases hz : inp.bands.lower ≤ inp.lastClosedClose ∧
          inp.lastClosedClose ≤ inp.bands.upper
      · simp [runTick, hl, hz] at h
      · simp [runTick, hl, hz] at h
    · rcases hsync : syncState st.posState inp.livePos with _ | ps
      · rfl
      · exfalso
        simp only [runTick, hl] at h
        simp only [hsync] at h
        split_ifs at h

/-- C8 (witness): (1) a bar that neither breaches the stop nor triggers a
step keeps the very same open position; (2) the tick of the C4 scenario
that emits an entry order indeed had a flat synced state. -/
theorem single_position_witness :
    ((stepBar defaultConfig
      { equity := 1000, position := some { side := Side.long, entry := 100, size := 1, sl := 90, step := 0, entryBar := 0 }, tpCount := 0, slCount := 0, lastExitBar := -9999 }
      100 105 95 0 0 0 0 20).position = none ∨
      ∃ q : Position,
        (stepBar defaultConfig
          { equity := 1000, position := some { side := Side.long, entry := 100, size := 1, sl := 90, step := 0, entryBar := 0 }, tpCount := 0, slCount := 0, lastExitBar := -9999 }
          100 105 95 0 0 0 0 20).position = some q ∧
        q.side = Side.long ∧ q.entry = 100 ∧ q.size = 1 ∧ q.entryBar = 0) ∧
    syncState (none : Option PositionState)
      (some { side := Side.long, contracts := 5, entry := 100 }) = none := by
  constructor
  · exact single_position_spec.1 defaultConfig
      { equity := 1000, position := some { side := Side.long, entry := 100, size := 1, sl := 90, step := 0, entryBar := 0 }, tpCount := 0, slCount := 0, lastExitBar := -9999 }
      { side := Side.long, entry := 100, size := 1, sl := 90, step := 0, entryBar := 0 }
      100 105 95 0 0 0 0 20 (by norm_num [defaultConfig]) rfl
  · exact single_position_spec.2 { posState := none, slLockActive := false }
      { lastClosedClose := 100, lastPrice := 85, sideAllowed := TrendSide.buy,
        bands := { upper := 110, lower := 90, mid := 100 },
        livePos := some { side := Side.long, contracts := 5, entry := 100 },
        venueFlatAfterClose := false, free := 100,
        fillResult := some { side := Side.long, contracts := 1, entry := 85 },
        cs := 1/100 } Side.long (by decide)

/-- Helper: `emaFrom` preserves length. -/
theorem emaFrom_length (k e : ℚ) (vs : List ℚ) :
    (emaFrom k e vs).length = vs.length := by
  induction vs generalizing e with
  | nil => rfl
  | cons v rest ih => simp [emaFrom, ih]

/-- Helper: the first element produced by the EMA recurrence loop. -/
theorem emaFrom_head (k : ℚ) (vs : List ℚ) (e c : ℚ) (h : vs[0]? = some c) :
    (emaFrom k e vs)[0]? = some (c * k + e * (1 - k)) := by
  cases vs with
  | nil => simp at h
  | cons v rest =>
    simp at h
    subst h
    simp [emaFrom]

/-- Helper: each later element produced by the EMA recurrence loop follows
the recurrence from its predecessor. -/
theorem emaFrom_rec (k : ℚ) (vs : List ℚ) :
    ∀ (e : ℚ) (j : ℕ) (c x : ℚ), vs[j + 1]? = some c →
      (emaFrom k e vs)[j]? = some x →
      (emaFrom k e vs)[j + 1]? = some (c * k + x * (1 - k)) := by
  induction vs with
  | nil => intro e j c x hc hx; simp at hc
  | cons v rest ih =>
    intro e j c x hc hx
    match j with
    | 0 =>
      have hx0 : v * k + e * (1 - k) = x := by
        simpa [emaFrom] using hx
      subst hx0
      have hc0 : rest[0]? = some c := by simpa using hc
      simpa [emaFrom] using emaFrom_head k rest (v * k + e * (1 - k)) c hc0
    | j' + 1 =>
      have hc' : rest[j' + 1]? = some c := by simpa using hc
      have hx' : (emaFrom k (v * k + e * (1 - k)) rest)[j']? = some x := by
        simpa [emaFrom] using hx
      simpa [emaFrom] using ih (v * k + e * (1 - k)) j' c x hc' hx'

/-- Helper: indexing below the leading block of undefined entries. -/
theorem rep_none_append_get_lt (m i : ℕ) (l : List (Option ℚ)) (h : i < m) :
    (List.replicate m (none : Option ℚ) ++ l)[i]? = some none := by
  induction m generalizing i with
  | zero => omega
  | succ m ih =>
    match i with
    | 0 => simp [List.replicate]
    | i' + 1 =>
      have h' : i' < m := by omega
      simpa [List.replicate] using ih i' h'

/-- Helper: indexing past the leading block of undefined entries. -/
theorem rep_none_append_get_ge (m i : ℕ) (l : List (Option ℚ)) :
    (List.replicate m (none : Option ℚ) ++ l)[m + i]? = l[i]? := by
  induction m with
  | zero => simp
  | succ m ih =>
    have harith : m + 1 + i = (m + i) + 1 := by omega
    rw [harith]
    simpa [List.replicate] using ih

example (l : List ℚ) (n i : ℕ) : (l.drop n)[i]? = l[n + i]? := by
  exact List.getElem?_drop l n i

example (l : List ℚ) (i : ℕ) : (l.map some)[i]? = (l[i]?).map some := by
  exact List.getElem?_map some l i

example (l : List ℚ) (i : ℕ) (h : i < l.length) : ∃ x, l[i]? = some x := by
  exact ⟨l[i], List.getElem?_eq_getElem h⟩

/-- Helper: the defined shape of `ema_series` when the input is long
enough. -/
theorem ema_series_eq (values : List ℚ) (n : ℕ) (h1 : 1 ≤ n)
    (h2 : n ≤ values.length) :
    ema_series values n = some (List.replicate (n - 1) none ++
      (some ((values.take n).sum / (n : ℚ)) ::
        (emaFrom (2 / ((n : ℚ) + 1)) ((values.take n).sum / (n : ℚ))
          (values.drop n)).map some)) := by
  have hne : ¬ (values.length = 0 ∨ values.length < n) := by omega
  simp only [ema_series]
  rw [if_neg hne]

/-- Helper: the full index-wise specification of the live bot's
`ema_series`. -/
theorem ema_series_props (values : List ℚ) (n : ℕ) (h1 : 1 ≤ n)
    (h2 : n ≤ values.length) :
    ∃ out : List (Option ℚ),
      ema_series values n = some out ∧
      out.length = values.length ∧
      (∀ i, i < n - 1 → out[i]? = some none) ∧
      out[n - 1]? = some (some ((values.take n).sum / (n : ℚ))) ∧
      (∀ j, n + j < values.length → ∃ e, out[n + j]? = some (some e)) ∧
      (∀ j c e, values[n + j]? = some c →
        out[n + j - 1]? = some (some e) →
        out[n + j]? = some (some (c * (2 / ((n : ℚ) + 1)) +
          e * (1 - 2 / ((n : ℚ) + 1))))) := by
  refine ⟨List.replicate (n - 1) none ++
      (some ((values.take n).sum / (n : ℚ)) ::
        (emaFrom (2 / ((n : ℚ) + 1)) ((values.take n).sum / (n : ℚ))
          (values.drop n)).map some),
    ema_series_eq values n h1 h2, ?_, ?_, ?_, ?_, ?_⟩
  · simp [emaFrom_length]
    omega
  · intro i hi
    exact rep_none_append_get_lt (n - 1) i _ hi
  · have h0 := rep_none_append_get_ge (n - 1) 0
      (some ((values.take n).sum / (n : ℚ)) ::
        (emaFrom (2 / ((n : ℚ) + 1)) ((values.take n).sum / (n : ℚ))
          (values.drop n)).map some)
    simpa using h0
  · intro j hj
    have harith : n + j = (n - 1) + (j + 1) := by omega
    rw [harith, rep_none_append_get_ge]
    have hjlen : j < (emaFrom (2 / ((n : ℚ) + 1)) ((values.take n).sum / (n : ℚ))
        (values.drop n)).length := by
      rw [emaFrom_length, List.length_drop]
      omega
    refine ⟨(emaFrom (2 / ((n : ℚ) + 1)) ((values.take n).sum / (n : ℚ))
        (values.drop n))[j], ?_⟩
    simp [List.getElem?_map, List.getElem?_eq_getElem hjlen]
  · intro j c e hc he
    match j with
    | 0 =>
      have hseed : (List.replicate (n - 1) none ++
          (some ((values.take n).sum / (n : ℚ)) ::
            (emaFrom (2 / ((n : ℚ) + 1)) ((values.take n).sum / (n : ℚ))
              (values.drop n)).map some))[n - 1]? =
          some (some ((values.take n).sum / (n : ℚ))) := by
        simpa using rep_none_append_get_ge (n - 1) 0
          (some ((values.take n).sum / (n : ℚ)) ::
            (emaFrom (2 / ((n : ℚ) + 1)) ((values.take n).sum / (n : ℚ))
              (values.drop n)).map some)
      rw [Nat.add_zero] at hc ⊢
      have he1 : n + 0 - 1 = n - 1 := by omega
      rw [he1, hseed] at he
      have he' : e = (values.take n).sum / (n : ℚ) := by
        simpa using he.symm
      have hc0 : (values.drop n)[0]? = some c := by
        rw [List.getElem?_drop]
        simpa using hc
      have hh := emaFrom_head (2 / ((n : ℚ) + 1)) (values.drop n)
        ((values.take n).sum / (n : ℚ)) c hc0
      have hidx := rep_none_append_get_ge (n - 1) 1
        (some ((values.take n).sum / (n : ℚ)) ::
          (emaFrom (2 / ((n : ℚ) + 1)) ((values.take n).sum / (n : ℚ))
            (values.drop n)).map some)
      rw [show n - 1 + 1 = n by omega] at hidx
      rw [hidx, he']
      simp only [List.getElem?_cons_succ, List.getElem?_map, hh]
      rfl
    | j' + 1 =>
      have harith1 : n + (j' + 1) - 1 = (n - 1) + (j' + 1) := by omega
      rw [harith1, rep_none_append_get_ge] at he
      simp only [List.getElem?_cons_succ, List.getElem?_map] at he
      have he' : (emaFrom (2 / ((n : ℚ) + 1)) ((values.take n).sum / (n : ℚ))
          (values.drop n))[j']? = some e := by
        cases hx : (emaFrom (2 / ((n : ℚ) + 1)) ((values.take n).sum / (n : ℚ))
            (values.drop n))[j']? with
        | none => rw [hx] at he; simp at he
        | some x => rw [hx] at he; simp at he; rw [he]
      have hc' : (values.drop n)[j' + 1]? = some c := by
        rw [List.getElem?_drop]
        exact hc
      have hrec := emaFrom_rec (2 / ((n : ℚ) + 1)) (values.drop n)
        ((values.take n).sum / (n : ℚ)) j' c e hc' he'
      have harith2 : n + (j' + 1) = (n - 1) + (j' + 1 + 1) := by omega
      rw [harith2, rep_none_append_get_ge]
      simp only [List.getElem?_cons_succ, List.getElem?_map, hrec]
      rfl

/-- Helper: the backtester's pandas-style EMA is defined at every index,
seeds at the first close, and follows the same recurrence from index 1. -/
theorem ewm_adjust_false_props (values : List ℚ) (n : ℕ) (h1 : 1 ≤ n)
    (h2 : n ≤ values.length) :
    (ewm_adjust_false values n).length = values.length ∧
    (ewm_adjust_false values n)[0]? = values[0]? ∧
    (∀ i c e, values[i + 1]? = some c →
      (ewm_adjust_false values n)[i]? = some e →
      (ewm_adjust_false values n)[i + 1]? = some (c * (2 / ((n : ℚ) + 1)) +
        e * (1 - 2 / ((n : ℚ) + 1)))) := by
  cases values with
  | nil => simp at h2; omega
  | cons v vs =>
    refine ⟨?_, ?_, ?_⟩
    · simp [ewm_adjust_false, emaFrom_length]
    · simp [ewm_adjust_false]
    · intro i c e hc he
      match i with
      | 0 =>
        have hv : v = e := by simpa [ewm_adjust_false] using he
        have hc0 : vs[0]? = some c := by simpa using hc
        have hh := emaFrom_head (2 / ((n : ℚ) + 1)) vs v c hc0
        rw [← hv]
        simpa [ewm_adjust_false] using hh
      | i' + 1 =>
        have hc' : vs[i' + 1]? = some c := by simpa using hc
        have he' : (emaFrom (2 / ((n : ℚ) + 1)) v vs)[i']? = some e := by
          simpa [ewm_adjust_false] using he
        have hrec := emaFrom_rec (2 / ((n : ℚ) + 1)) vs v i' c e hc' he'
        simpa [ewm_adjust_false] using hrec

/-- C2 (counterexample): the claim fails for the EMA used by the
backtester.  On the two-element series `[0, 2]` with period 2, the
arithmetic mean of the first two closes is `1`, but the backtester's
`ewm(span=2, adjust=False)` EMA has value `4/3` at index `period - 1 = 1`
(it seeds at the first close, which is also defined at index 0 rather than
undefined). -/
theorem ema_backtester_seed_counterexample :
    ([(0 : ℚ), 2].length = 2) ∧
    (ewm_adjust_false [0, 2] 2)[1]? = some (4/3) ∧
    ((([(0 : ℚ), 2].take 2).sum / (2 : ℚ)) = 1) ∧
    ((4 : ℚ)/3 ≠ 1) ∧
    (ewm_adjust_false [0, 2] 2)[0]? = some 0 := by
    refine ⟨rfl, ?_, by norm_num, by norm_num, ?_⟩
    · show (ewm_adjust_false [0, 2] 2)[1]? = some (4/3)
      norm_num [ewm_adjust_false, emaFrom]
    · norm_num [ewm_adjust_false, emaFrom]

/-- C2 (amended): the seed/recurrence law of the claim holds for the live
bot's `ema_series` — value `period - 1` is the arithmetic mean of the
first `period` closes, earlier values are undefined, and each later value
obeys `e[i] = close[i]*k + e[i-1]*(1-k)` with `k = 2/(period+1)` — while
the backtester's EMA (pandas `ewm(span=period, adjust=False)`) instead is
defined at every index, seeds at the very first close, and obeys the same
recurrence from index 1 on. -/
theorem ema_series_spec (values : List ℚ) (n : ℕ) (h1 : 1 ≤ n)
    (h2 : n ≤ values.length) :
    (∃ out : List (Option ℚ),
      ema_series values n = some out ∧
      out.length = values.length ∧
      (∀ i, i < n - 1 → out[i]? = some none) ∧
      out[n - 1]? = some (some ((values.take n).sum / (n : ℚ))) ∧
      (∀ j, n + j < values.length → ∃ e, out[n + j]? = some (some e)) ∧
      (∀ j c e, values[n + j]? = some c →
        out[n + j - 1]? = some (some e) →
        out[n + j]? = some (some (c * (2 / ((n : ℚ) + 1)) +
          e * (1 - 2 / ((n : ℚ) + 1)))))) ∧
    (ewm_adjust_false values n).length = values.length ∧
    (ewm_adjust_false values n)[0]? = values[0]? ∧
    (∀ i c e, values[i + 1]? = some c →
      (ewm_adjust_false values n)[i]? = some e →
      (ewm_adjust_false values n)[i + 1]? = some (c * (2 / ((n : ℚ) + 1)) +
        e * (1 - 2 / ((n : ℚ) + 1)))) :=
  ⟨ema_series_props values n h1 h2, ewm_adjust_false_props values n h1 h2⟩

/-- C2 (witness): on the series `[1, 2, 3]` with period 2, `ema_series`
is defined and its index-1 value is the mean `3/2` of the first two
closes. -/
theorem ema_series_spec_witness :
    ∃ out : List (Option ℚ), ema_series [1, 2, 3] 2 = some out ∧
      out[2 - 1]? = some (some ((([1, 2, 3] : List ℚ).take 2).sum / ((2 : ℕ) : ℚ))) := by
    obtain ⟨⟨out, ho1, ho2, ho3, ho4, ho5, ho6⟩, hw1, hw2, hw3⟩ :=
      ema_series_spec [1, 2, 3] 2 (by norm_num) (by norm_num)
    exact ⟨out, ho1, ho4⟩

end EmaCross
